import Mathlib

/-!
Verification of the streaming text-to-speech relay pipeline in
`learning_page_logic/voice_server.py` (the `/api/ask` voice pathway).

The embedding models:
- `TextStreamBuffer` (the Token Buffer): a FIFO of text fragments plus a
  done flag, with `add`, `finish` and the polling iterator;
- `stream_claude` (the Text Producer): driven by an abstract run of the
  external language-model stream, it feeds the buffer and the outbound queue;
- `stream_fish_tts` (the Speech Producer): driven by an abstract run of the
  external TTS session, it feeds the outbound queue with base64 audio
  events, a final done event, or a TTS-tagged error event;
- the relay read loop of `generate_audio`: a poll-by-poll loop over the
  outbound queue whose timeout branch re-checks thread liveness.

External services (the Anthropic stream and the Fish Audio session) are
modelled by the sequence of chunks they yield and whether they then complete
normally or raise, which is exactly the interface the Python code consumes.
Thread schedules are modelled as order-preserving interleavings of the
atomic shared-state actions of the two producer threads.
-/

namespace VoiceServer

/-- One event placed on the outbound queue (`audio_queue`): the tagged union
written as a JSON line by `stream_claude` and `stream_fish_tts`. -/
inductive Event where
  | text (content : String)
  | audio (content : String)
  | error (content : String)
  | done
deriving DecidableEq, Repr

/-- State of `TextStreamBuffer`: the FIFO queue contents and the done flag
set by `finish()`. -/
structure TextStreamBuffer where
  queue : List String
  done : Bool
deriving DecidableEq, Repr

/-- A freshly constructed `TextStreamBuffer`: empty queue, done false. -/
def TextStreamBuffer.empty : TextStreamBuffer := ⟨[], false⟩

/-- Method `add` of `TextStreamBuffer`: `if text: self.queue.put(text)`.
Python string truthiness: the fragment is enqueued only when non-empty. -/
def TextStreamBuffer.add (b : TextStreamBuffer) (text : String) : TextStreamBuffer :=
  if text = "" then b else { b with queue := b.queue ++ [text] }

/-- Method `finish` of `TextStreamBuffer`: `self.done = True`. -/
def TextStreamBuffer.finish (b : TextStreamBuffer) : TextStreamBuffer :=
  { b with done := true }

/-- Push a whole sequence of fragments with `add`, left to right. -/
def pushList (b : TextStreamBuffer) : List String → TextStreamBuffer
  | [] => b
  | f :: fs => pushList (b.add f) fs

/-- Sequential semantics of the iterator of `TextStreamBuffer` (no
concurrent producer), with fuel counting loop iterations:

    while not self.done or not self.queue.empty():
        try:
            yield self.queue.get(timeout=0.1)
        except queue.Empty:
            if self.done: break
            continue

Here `some l` means the loop terminated having yielded `l`, and `none`
means the fuel ran out (sequentially, an unfinished empty buffer polls
forever). -/
def TextStreamBuffer.iterSteps : Nat → TextStreamBuffer → Option (List String)
  | 0, _ => none
  | n + 1, b =>
    if b.done = false ∨ b.queue ≠ [] then
      match b.queue with
      | x :: xs => (TextStreamBuffer.iterSteps n { b with queue := xs }).map (x :: ·)
      | [] =>
        if b.done then some [] else TextStreamBuffer.iterSteps n b
    else some []

/-- The type tag of the JSON line written for an event, as read back by the
relay loop through `chunk_data.get('type')`. -/
def Event.typeTag : Event → String
  | Event.text _ => "text"
  | Event.audio _ => "audio"
  | Event.error _ => "error"
  | Event.done => "done"

/-- Number of events with a given type tag in an event list. -/
def countType (t : String) (es : List Event) : Nat :=
  (es.filter fun e => e.typeTag == t).length

/-- The contents of the text events of an event list, in order. -/
def textContents (es : List Event) : List String :=
  es.filterMap fun e =>
    match e with
    | Event.text c => some c
    | _ => none

/-- The base64 alphabet used by the python function `base64.b64encode`. -/
def base64Alphabet : List Char :=
  "ABCDEFGHIJKLMNOPQRSTUVWXYZabcdefghijklmnopqrstuvwxyz0123456789+/".toList

/-- The base64 digit for a 6-bit value. -/
def b64Char (n : Nat) : Char := base64Alphabet.getD n 'A'

/-- Standard base64 with padding of a byte sequence (each byte < 256), as
computed by `base64.b64encode(audio_chunk).decode('utf-8')`. -/
def base64Encode : List Nat → String
  | [] => ""
  | [a] => String.mk [b64Char (a / 4), b64Char (a % 4 * 16), '=', '=']
  | [a, b] => String.mk [b64Char (a / 4), b64Char (a % 4 * 16 + b / 16),
      b64Char (b % 16 * 4), '=']
  | a :: b :: c :: rest => String.mk [b64Char (a / 4), b64Char (a % 4 * 16 + b / 16),
      b64Char (b % 16 * 4 + c / 64), b64Char (c % 64)] ++ base64Encode rest

/-- An abstract run of the external Anthropic streaming call made inside
`stream_claude`: the text deltas that `stream.text_stream` yields, in
order, and `none` when the stream then completes normally, or `some msg`
when the call raises an exception rendering as `msg` after those deltas. -/
structure ClaudeStreamRun where
  chunks : List String
  failure : Option String
deriving DecidableEq, Repr

/-- The per-delta loop of `stream_claude`: accumulate `full_text`, call
`text_buffer.add(text_chunk)`, and put a text event on `audio_queue`.
Returns the accumulated text, the buffer, and the events this thread has
put on the queue, in order. -/
def streamClaudeLoop (acc : String) (b : TextStreamBuffer) (out : List Event) :
    List String → String × TextStreamBuffer × List Event
  | [] => (acc, b, out)
  | c :: cs => streamClaudeLoop (acc ++ c) (b.add c) (out ++ [Event.text c]) cs

/-- Thread body `stream_claude`: run the delta loop from a fresh session
buffer; on normal completion call `text_buffer.finish()`; on an exception
call `finish()` and then put a single error event carrying the message.
Returns the final buffer and the events this thread put on `audio_queue`. -/
def stream_claude (run : ClaudeStreamRun) : TextStreamBuffer × List Event :=
  let r := streamClaudeLoop "" TextStreamBuffer.empty [] run.chunks
  match run.failure with
  | none => (r.2.1.finish, r.2.2)
  | some msg => (r.2.1.finish, r.2.2 ++ [Event.error msg])

/-- An abstract run of the external Fish Audio websocket session inside
`stream_fish_tts`: the binary audio chunks (byte sequences) that
`ws_session.tts(...)` yields, in order, and `none` when the session then
completes normally, or `some msg` when it raises an exception rendering as
`msg` (a session-open failure is a run with no chunks). -/
structure FishRun where
  chunks : List (List Nat)
  failure : Option String
deriving DecidableEq, Repr

/-- Thread body `stream_fish_tts`: every audio chunk is put on
`audio_queue` as a base64 audio event; after a normal completion one done
event is put; on an exception a single error event with content
`"TTS Error: " ++ msg` is put instead. Returns the events this thread put
on the queue, in order. -/
def stream_fish_tts (run : FishRun) : List Event :=
  let audios := run.chunks.map fun c => Event.audio (base64Encode c)
  match run.failure with
  | none => audios ++ [Event.done]
  | some msg => audios ++ [Event.error ("TTS Error: " ++ msg)]

/-- All events put on `audio_queue` during one `/api/ask` session whose
model stream behaves as `cr` and whose TTS session behaves as `fr`. The
multiplexer interleaves the puts of the two producers; which events occur
is independent of the interleaving. -/
def enqueuedEvents (cr : ClaudeStreamRun) (fr : FishRun) : List Event :=
  (stream_claude cr).2 ++ stream_fish_tts fr

/-- Minimal JSON values, enough for the line-delimited wire format. -/
inductive Json where
  | str (s : String)
  | obj (fields : List (String × Json))

/-- Field lookup on a JSON value, `none` on non-objects. -/
def Json.lookup (k : String) : Json → Option Json
  | Json.str _ => none
  | Json.obj fields => fields.lookup k

/-- The JSON object serialized (one per line) for each event by
`json.dumps` in `stream_claude`, in `stream_fish_tts` and for the
completion signal. The done line carries only the type field. -/
def eventLine : Event → Json
  | Event.text c => Json.obj [("type", Json.str "text"), ("content", Json.str c)]
  | Event.audio c => Json.obj [("type", Json.str "audio"), ("content", Json.str c)]
  | Event.error c => Json.obj [("type", Json.str "error"), ("content", Json.str c)]
  | Event.done => Json.obj [("type", Json.str "done")]

/-- One observation made by one iteration of the relay read loop of
`generate_audio`: either `audio_queue.get(timeout=0.1)` returned a line
(`item`), or it timed out (`timeout`), recording what
`claude_thread.is_alive()`, `fish_thread.is_alive()` and
`audio_queue.empty()` report at the re-check. -/
inductive Poll where
  | item (e : Event)
  | timeout (claudeAlive fishAlive queueEmpty : Bool)
deriving DecidableEq, Repr

/-- The relay read loop of `generate_audio`, run against a trace of poll
observations: a dequeued line is yielded, and the loop breaks right after
yielding a line whose type is done; on a timeout the loop breaks when both
producer threads are dead and the queue is empty, and otherwise continues.
Returns the yielded lines and whether the loop has exited (`true`) or was
still polling when the trace ran out (`false`). -/
def relayLoop : List Poll → List Event × Bool
  | [] => ([], false)
  | Poll.item e :: ps =>
    if e.typeTag = "done" then ([e], true)
    else
      let r := relayLoop ps
      (e :: r.1, r.2)
  | Poll.timeout c f q :: ps =>
    if c = false ∧ f = false ∧ q = true then ([], true)
    else relayLoop ps

/-- The lines the relay delivers out of a queue whose final FIFO contents
are `es`: everything up to and including the first done line (the loop
breaks right after yielding it), and all of `es` when no done line occurs
(the loop then exits through the thread-liveness check). -/
def deliver : List Event → List Event
  | [] => []
  | e :: es => if e.typeTag = "done" then [e] else e :: deliver es

/-- Atomic shared-state actions of the two producer threads of
`generate_audio`, in the order each thread performs them: the text thread
adds a delta to the token buffer, puts a text event, and finally finishes
the buffer; the speech thread puts audio events and finally the done
event. -/
inductive Act where
  | cAdd (f : String)
  | cPut (f : String)
  | cFinish
  | fAudio (c : String)
  | fDone
deriving DecidableEq, Repr

/-- The shared-state actions `stream_claude` performs on a run that emits
deltas `fs` and completes normally: for each delta an add on the token
buffer then a put of the text event, then `text_buffer.finish()`. -/
def claudeActs (fs : List String) : List Act :=
  (fs.flatMap fun f => [Act.cAdd f, Act.cPut f]) ++ [Act.cFinish]

/-- The shared-state actions `stream_fish_tts` performs on a run that
synthesizes audio contents `cs` (already base64) and completes normally:
one put per audio event, then the put of the done event. -/
def fishActs (cs : List String) : List Act :=
  cs.map Act.fAudio ++ [Act.fDone]

/-- The event an action puts on `audio_queue`, when it puts one. -/
def Act.putEvent : Act → Option Event
  | Act.cPut f => some (Event.text f)
  | Act.fAudio c => some (Event.audio c)
  | Act.fDone => some Event.done
  | _ => none

/-- The FIFO contents of `audio_queue` produced by a schedule. -/
def queueOf (σ : List Act) : List Event := σ.filterMap Act.putEvent

/-- Holds when no done put precedes the buffer finish in a schedule. The
Fish SDK call drains the token buffer passed to `ws_session.tts`, and the
buffer iterator terminates only once `finish()` has run, so every real
schedule satisfies this. -/
def doneWaitsForFinish : List Act → Bool
  | [] => true
  | Act.cFinish :: _ => true
  | Act.fDone :: _ => false
  | _ :: rest => doneWaitsForFinish rest

/-- Relation `Merge xs ys zs`: `zs` is an interleaving of `xs` and `ys`
preserving the internal order of each — the possible schedules of the
action sequences of two threads. -/
inductive Merge {α : Type} : List α → List α → List α → Prop
  | nil : Merge [] [] []
  | left (x : α) (xs ys zs : List α) : Merge xs ys zs → Merge (x :: xs) ys (x :: zs)
  | right (y : α) (xs ys zs : List α) : Merge xs ys zs → Merge xs (y :: ys) (y :: zs)

/-- All interleavings of two lists preserving the order of each, with fuel
bounding the recursion depth (structural, so it evaluates by reduction). -/
def mergesFuel {α : Type} : Nat → List α → List α → List (List α)
  | _, [], ys => [ys]
  | _, x :: xs, [] => [x :: xs]
  | 0, _ :: _, _ :: _ => []
  | n + 1, x :: xs, y :: ys =>
    ((mergesFuel n xs (y :: ys)).map (x :: ·)) ++ ((mergesFuel n (x :: xs) ys).map (y :: ·))

/-- All interleavings of two lists preserving the order of each. -/
def merges {α : Type} (xs ys : List α) : List (List α) :=
  mergesFuel (xs.length + ys.length) xs ys

/-! Supporting lemmas. -/

/-- A closed buffer drains exactly its queue contents, with any fuel
exceeding the queue length (one loop iteration per element plus the final
emptiness check). -/
theorem iterSteps_closed : ∀ (n : Nat) (q : List String), q.length < n →
    TextStreamBuffer.iterSteps n ⟨q, true⟩ = some q
  | 0, _, h => absurd h (Nat.not_lt_zero _)
  | _ + 1, [], _ => by simp [TextStreamBuffer.iterSteps]
  | n + 1, x :: xs, h => by
    have ih := iterSteps_closed n xs (Nat.lt_of_succ_lt_succ (by simpa using h))
    simp [TextStreamBuffer.iterSteps, ih]

/-- Pushing fragments accumulates exactly the non-empty ones, in push
order, and never touches the done flag. -/
theorem pushList_queue (b : TextStreamBuffer) (fs : List String) :
    pushList b fs = ⟨b.queue ++ fs.filter (· ≠ ""), b.done⟩ := by
  induction fs generalizing b with
  | nil => simp [pushList]
  | cons f fs ih =>
    by_cases hf : f = "" <;>
      simp [pushList, TextStreamBuffer.add, hf, ih, List.filter_cons]

/-- Effect of the delta loop of `stream_claude` on the buffer and on the
queued events. -/
theorem streamClaudeLoop_spec (acc : String) (b : TextStreamBuffer) (out : List Event)
    (cs : List String) :
    (streamClaudeLoop acc b out cs).2 =
      (⟨b.queue ++ cs.filter (· ≠ ""), b.done⟩, out ++ cs.map Event.text) := by
  induction cs generalizing acc b out with
  | nil => simp [streamClaudeLoop]
  | cons c cs ih =>
    by_cases hc : c = "" <;>
      simp [streamClaudeLoop, TextStreamBuffer.add, hc, ih, List.filter_cons]

/-- The buffer `stream_claude` leaves behind: closed, holding the non-empty
deltas in model order (on both the normal and the exceptional path). -/
theorem stream_claude_buffer (run : ClaudeStreamRun) :
    (stream_claude run).1 = ⟨run.chunks.filter (· ≠ ""), true⟩ := by
  cases run with
  | mk cs fl =>
    cases fl <;>
      simp [stream_claude, streamClaudeLoop_spec, TextStreamBuffer.empty,
        TextStreamBuffer.finish]

/-- The events `stream_claude` puts on the outbound queue: one text event
per delta in model order, then one error event exactly on failure. -/
theorem stream_claude_events (run : ClaudeStreamRun) :
    (stream_claude run).2 = run.chunks.map Event.text ++
      (match run.failure with
       | none => []
       | some msg => [Event.error msg]) := by
  cases run with
  | mk cs fl =>
    cases fl <;> simp [stream_claude, streamClaudeLoop_spec]

/-- Text contents distribute over appending event lists. -/
theorem textContents_append (es fs : List Event) :
    textContents (es ++ fs) = textContents es ++ textContents fs := by
  simp [textContents]

/-- The text contents of pure text events are exactly their payloads. -/
theorem textContents_map_text (cs : List String) :
    textContents (cs.map Event.text) = cs := by
  induction cs with
  | nil => rfl
  | cons c cs ih => simp [textContents] at ih ⊢; exact ih

/-- The text contents of an empty event list. -/
theorem textContents_nil : textContents [] = [] := rfl

/-- An error event contributes no text content. -/
theorem textContents_error (msg : String) : textContents [Event.error msg] = [] := rfl

/-- The outbound text contents of `stream_claude` are the model deltas,
in model order, on both the normal and the exceptional path. -/
theorem textContents_stream_claude (run : ClaudeStreamRun) :
    textContents (stream_claude run).2 = run.chunks := by
  rw [stream_claude_events]
  cases hf : run.failure <;>
    simp only [textContents_append, textContents_map_text, textContents_nil,
      textContents_error, List.append_nil]

/-- Type-tag counts distribute over appending event lists. -/
theorem countType_append (t : String) (es fs : List Event) :
    countType t (es ++ fs) = countType t es + countType t fs := by
  simp [countType]

/-- An event list none of whose members carries tag `t` has count zero. -/
theorem countType_eq_zero {t : String} :
    ∀ {es : List Event}, (∀ e ∈ es, e.typeTag ≠ t) → countType t es = 0
  | [], _ => rfl
  | e :: es, h => by
    have h1 : (e.typeTag == t) = false :=
      beq_eq_false_iff_ne.mpr (h e (List.mem_cons_self e es))
    have h2 := countType_eq_zero fun x hx => h x (List.mem_cons_of_mem e hx)
    simp [countType, List.filter_cons, h1] at h2 ⊢
    exact h2

/-- A list of audio events contains no event with another tag. -/
theorem countType_map_audio {t : String} (ht : t ≠ "audio") (cs : List (List Nat)) :
    countType t (cs.map fun c => Event.audio (base64Encode c)) = 0 := by
  refine countType_eq_zero fun e hmem => ?_
  rcases List.mem_map.mp hmem with ⟨c, _, rfl⟩
  simpa [Event.typeTag] using fun hh => ht hh.symm

/-- A list of audio events counts one audio tag per element. -/
theorem countType_audio_map (cs : List (List Nat)) :
    countType "audio" (cs.map fun c => Event.audio (base64Encode c)) = cs.length := by
  induction cs with
  | nil => rfl
  | cons c cs ih => simpa [countType, List.filter_cons, Event.typeTag] using ih

/-- A tag equals "done" exactly for the done event. -/
theorem typeTag_eq_done_iff (e : Event) : e.typeTag = "done" ↔ e = Event.done := by
  cases e <;> simp [Event.typeTag]

/-- Feeding the relay loop the whole queue followed by a timeout that finds
both producers dead and the queue empty delivers exactly `deliver es`. -/
theorem relayLoop_items (es : List Event) :
    relayLoop (es.map Poll.item ++ [Poll.timeout false false true]) = (deliver es, true) := by
  induction es with
  | nil => simp [relayLoop, deliver]
  | cons e es ih =>
    by_cases he : e.typeTag = "done" <;> simp [relayLoop, deliver, he, ih]

theorem merge_nil_left {α : Type} {xs ys zs : List α} (h : Merge xs ys zs)
    (hx : xs = []) : zs = ys := by
  induction h with
  | nil => rfl
  | left x xs ys zs h ih => cases hx
  | right y xs ys zs h ih => cases hx; simp [ih rfl]

theorem merge_nil_right {α : Type} {xs ys zs : List α} (h : Merge xs ys zs)
    (hy : ys = []) : zs = xs := by
  induction h with
  | nil => rfl
  | left x xs ys zs h ih => cases hy; simp [ih rfl]
  | right y xs ys zs h ih => cases hy

/-- Every interleaving in the `Merge` relation is listed by `mergesFuel`,
for any sufficient fuel. -/
theorem mem_mergesFuel {α : Type} {xs ys zs : List α} (h : Merge xs ys zs) :
    ∀ n : Nat, xs.length + ys.length ≤ n → zs ∈ mergesFuel n xs ys := by
  induction h with
  | nil => intro n _; simp [mergesFuel]
  | left x xs ys zs h ih =>
    intro n hn
    cases ys with
    | nil => simp [mergesFuel, merge_nil_right h rfl]
    | cons y ys =>
      cases n with
      | zero => simp at hn
      | succ n =>
        simp only [mergesFuel, List.mem_append, List.mem_map]
        exact Or.inl ⟨zs, ih n (by simp at hn ⊢; omega), rfl⟩
  | right y xs ys zs h ih =>
    intro n hn
    cases xs with
    | nil => simp [mergesFuel, merge_nil_left h rfl]
    | cons x xs =>
      cases n with
      | zero => simp at hn
      | succ n =>
        simp only [mergesFuel, List.mem_append, List.mem_map]
        exact Or.inr ⟨zs, ih n (by simp at hn ⊢; omega), rfl⟩

/-- Every interleaving in the `Merge` relation is listed by `merges`. -/
theorem Merge.mem_merges {α : Type} {xs ys zs : List α} (h : Merge xs ys zs) :
    zs ∈ merges xs ys :=
  mem_mergesFuel h _ (Nat.le_refl _)

/-- Running one thread to completion before the other is one schedule. -/
theorem merge_append {α : Type} (xs ys : List α) : Merge xs ys (xs ++ ys) := by
  induction xs with
  | nil =>
    induction ys with
    | nil => exact Merge.nil
    | cons y ys ih => exact Merge.right y _ _ _ ih
  | cons x xs ih => exact Merge.left x _ _ _ ih

/-! Claims. -/

/-- Claim C1, counterexample: pushing the single fragment "" and then
closing yields no fragment at all — the iterator does not yield the one
pushed fragment, refuting the claim at N = 1, fragment "". -/
theorem C1_counterexample :
    TextStreamBuffer.iterSteps 2 ((pushList TextStreamBuffer.empty [""]).finish) = some [] ∧
    ([] : List String) ≠ [""] := by decide

/-- Claim C1 (amended): for every sequence of fragments pushed and then
closed, the iterator terminates and yields exactly the non-empty fragments
among them, in push order — in particular exactly the pushed fragments
whenever all are non-empty, and nothing at all for N = 0. -/
theorem C1_buffer_yields_pushed_fragments (fs : List String) :
    TextStreamBuffer.iterSteps (fs.length + 1) ((pushList TextStreamBuffer.empty fs).finish) =
      some (fs.filter (· ≠ "")) := by
  rw [pushList_queue]
  simp only [TextStreamBuffer.finish, TextStreamBuffer.empty, List.nil_append]
  exact iterSteps_closed _ _ (Nat.lt_succ_of_le (List.length_filter_le _ _))

/-- Claim C2, counterexample: when the model emits the single empty delta,
the outbound multiplexer receives a text event with empty content but the
token buffer receives nothing, so the two consumers do not observe the same
fragment sequence. -/
theorem C2_counterexample :
    textContents (stream_claude ⟨[""], none⟩).2 = [""] ∧
    (stream_claude ⟨[""], none⟩).1.queue = [] ∧
    (stream_claude ⟨[""], none⟩).1.queue ≠ textContents (stream_claude ⟨[""], none⟩).2 := by
  decide

/-- Claim C2 (amended): every model delta is emitted as a text event to the
outbound multiplexer in model order, and every non-empty delta is pushed to
the token buffer in model order; the two consumers observe the same
fragment sequence whenever no delta is empty. -/
theorem C2_fragment_fanout (run : ClaudeStreamRun) :
    textContents (stream_claude run).2 = run.chunks ∧
    (stream_claude run).1.queue = run.chunks.filter (· ≠ "") ∧
    ((∀ c ∈ run.chunks, c ≠ "") →
      (stream_claude run).1.queue = textContents (stream_claude run).2) := by
  refine ⟨textContents_stream_claude run, ?_, ?_⟩
  · rw [stream_claude_buffer]
  · intro hne
    rw [stream_claude_buffer, textContents_stream_claude]
    exact List.filter_eq_self.mpr fun a ha => decide_eq_true (hne a ha)

theorem C2_fragment_fanout_witness :
    (stream_claude ⟨["Hi"], none⟩).1.queue =
      textContents (stream_claude ⟨["Hi"], none⟩).2 :=
  (C2_fragment_fanout ⟨["Hi"], none⟩).2.2 (by decide)

/-- Claim C3, counterexample: in the execution where the model stream
completes with no deltas and the TTS session fails immediately, no done
event is ever put on the multiplexer, so it never yields one. -/
theorem C3_counterexample :
    Event.done ∉ enqueuedEvents ⟨[], none⟩ ⟨[], some "bad"⟩ := by decide

/-- Claim C3 (amended): the multiplexer receives a done event exactly in
the executions where the speech producer completes normally; when the TTS
call fails, a TTS-tagged error event is enqueued instead and no done event
is ever enqueued (the relay loop then exits through its thread-liveness
check). -/
theorem C3_done_iff_tts_success (cr : ClaudeStreamRun) (fr : FishRun) :
    (Event.done ∈ enqueuedEvents cr fr ↔ fr.failure = none) ∧
    (∀ msg, fr.failure = some msg →
      Event.error ("TTS Error: " ++ msg) ∈ enqueuedEvents cr fr) := by
  have hc : Event.done ∉ (stream_claude cr).2 := by
    rw [stream_claude_events]
    cases hf : cr.failure <;> simp
  constructor
  · constructor
    · intro hmem
      rcases List.mem_append.mp hmem with h | h
      · exact absurd h hc
      · cases hf : fr.failure with
        | none => rfl
        | some msg => simp [stream_fish_tts, hf] at h
    · intro hf
      exact List.mem_append_right _ (by simp [stream_fish_tts, hf])
  · intro msg hf
    exact List.mem_append_right _ (by simp [stream_fish_tts, hf])

theorem C3_done_iff_tts_success_witness :
    Event.done ∈ enqueuedEvents ⟨[], none⟩ ⟨[], none⟩ ∧
    Event.error ("TTS Error: " ++ "bad") ∈ enqueuedEvents ⟨[], none⟩ ⟨[], some "bad"⟩ :=
  ⟨(C3_done_iff_tts_success ⟨[], none⟩ ⟨[], none⟩).1.mpr rfl,
   (C3_done_iff_tts_success ⟨[], none⟩ ⟨[], some "bad"⟩).2 "bad" rfl⟩

/-- Claim C4: when the language-model call raises with message `msg` after
some deltas, `stream_claude` puts exactly one error event, carrying `msg`,
after the text events, and the token buffer is still closed, so the speech
producer is not left blocked. -/
theorem C4_claude_error_still_closes (run : ClaudeStreamRun) (msg : String)
    (h : run.failure = some msg) :
    (stream_claude run).2 = run.chunks.map Event.text ++ [Event.error msg] ∧
    countType "error" (stream_claude run).2 = 1 ∧
    (stream_claude run).1.done = true := by
  have he : (stream_claude run).2 = run.chunks.map Event.text ++ [Event.error msg] := by
    rw [stream_claude_events, h]
  refine ⟨he, ?_, ?_⟩
  · rw [he, countType_append]
    have hz : countType "error" (run.chunks.map Event.text) = 0 := by
      refine countType_eq_zero fun e hmem => ?_
      rcases List.mem_map.mp hmem with ⟨c, _, rfl⟩
      simp [Event.typeTag]
    rw [hz]
    simp [countType, Event.typeTag]
  · rw [stream_claude_buffer]

theorem C4_claude_error_still_closes_witness :
    (stream_claude ⟨["Hi"], some "boom"⟩).2 = [Event.text "Hi", Event.error "boom"] ∧
    countType "error" (stream_claude ⟨["Hi"], some "boom"⟩).2 = 1 ∧
    (stream_claude ⟨["Hi"], some "boom"⟩).1.done = true := by
  have h := C4_claude_error_still_closes ⟨["Hi"], some "boom"⟩ "boom" rfl
  simpa using h

/-- Claim C5: on normal completion of the speech-synthesis stream,
`stream_fish_tts` puts exactly one done event, as the last event; on any
failure it instead puts an error event whose content carries the
TTS-specific prefix, puts no done event, and puts no audio event beyond
those synthesized before the failure — it terminates rather than hanging. -/
theorem C5_fish_done_or_error (run : FishRun) :
    (run.failure = none →
      stream_fish_tts run =
        (run.chunks.map fun c => Event.audio (base64Encode c)) ++ [Event.done] ∧
      countType "done" (stream_fish_tts run) = 1) ∧
    (∀ msg, run.failure = some msg →
      stream_fish_tts run =
        (run.chunks.map fun c => Event.audio (base64Encode c)) ++
          [Event.error ("TTS Error: " ++ msg)] ∧
      countType "done" (stream_fish_tts run) = 0 ∧
      countType "audio" (stream_fish_tts run) = run.chunks.length) := by
  constructor
  · intro hf
    have he : stream_fish_tts run =
        (run.chunks.map fun c => Event.audio (base64Encode c)) ++ [Event.done] := by
      simp [stream_fish_tts, hf]
    refine ⟨he, ?_⟩
    rw [he, countType_append, countType_map_audio (by decide)]
    decide
  · intro msg hf
    have he : stream_fish_tts run =
        (run.chunks.map fun c => Event.audio (base64Encode c)) ++
          [Event.error ("TTS Error: " ++ msg)] := by
      simp [stream_fish_tts, hf]
    refine ⟨he, ?_, ?_⟩
    · rw [he, countType_append, countType_map_audio (by decide)]
      simp [countType, Event.typeTag]
    · rw [he, countType_append, countType_audio_map]
      simp [countType, Event.typeTag]

theorem C5_fish_done_or_error_witness :
    countType "done" (stream_fish_tts ⟨[[1, 2]], none⟩) = 1 ∧
    stream_fish_tts ⟨[], some "bad"⟩ = [Event.error ("TTS Error: " ++ "bad")] := by
  refine ⟨((C5_fish_done_or_error ⟨[[1, 2]], none⟩).1 rfl).2, ?_⟩
  have h := ((C5_fish_done_or_error ⟨[], some "bad"⟩).2 "bad" rfl).1
  simpa using h

/-- Claim C6, counterexample: the done line is serialized with no content
field at all, refuting the claim that every line — including the done
line — carries a content field holding a string. -/
theorem C6_counterexample :
    Json.lookup "content" (eventLine Event.done) = none ∧
    Json.lookup "type" (eventLine Event.done) = some (Json.str "done") :=
  ⟨rfl, rfl⟩

/-- Claim C6 (amended): every outbound line is a JSON object whose type
field is one of text, audio, error, done; every line other than the done
line also carries a content field holding a string; the done line carries
only the type field. -/
theorem C6_wire_format (e : Event) :
    Json.lookup "type" (eventLine e) = some (Json.str e.typeTag) ∧
    (e.typeTag = "text" ∨ e.typeTag = "audio" ∨ e.typeTag = "error" ∨ e.typeTag = "done") ∧
    (e ≠ Event.done → ∃ s, Json.lookup "content" (eventLine e) = some (Json.str s)) ∧
    (e = Event.done → Json.lookup "content" (eventLine e) = none) := by
  cases e with
  | text c => exact ⟨rfl, Or.inl rfl, fun _ => ⟨c, rfl⟩, fun h => Event.noConfusion h⟩
  | audio c => exact ⟨rfl, Or.inr (Or.inl rfl), fun _ => ⟨c, rfl⟩, fun h => Event.noConfusion h⟩
  | error c =>
    exact ⟨rfl, Or.inr (Or.inr (Or.inl rfl)), fun _ => ⟨c, rfl⟩, fun h => Event.noConfusion h⟩
  | done => exact ⟨rfl, Or.inr (Or.inr (Or.inr rfl)), fun h => absurd rfl h, fun _ => rfl⟩

theorem C6_wire_format_witness :
    ∃ s, Json.lookup "content" (eventLine (Event.text "Hi")) = some (Json.str s) :=
  (C6_wire_format (Event.text "Hi")).2.2.1 (fun h => Event.noConfusion h)

/-- Claim C7: on a timeout poll the relay loop stops exactly when both
producer threads have terminated and the queue is empty, and otherwise
keeps polling; consequently, once a poll observes both threads dead and
the queue empty — however the queue behaved before — the loop has
terminated. -/
theorem C7_relay_timeout_check :
    (∀ (c f q : Bool) (ps : List Poll),
      relayLoop (Poll.timeout c f q :: ps) =
        if c = false ∧ f = false ∧ q = true then ([], true) else relayLoop ps) ∧
    (∀ xs ys : List Poll,
      (relayLoop (xs ++ Poll.timeout false false true :: ys)).2 = true) := by
  refine ⟨fun c f q ps => rfl, fun xs ys => ?_⟩
  induction xs with
  | nil => simp [relayLoop]
  | cons p xs ih =>
    cases p with
    | item e =>
      by_cases he : e.typeTag = "done" <;> simp [relayLoop, he, ih]
    | timeout c f q =>
      by_cases h : c = false ∧ f = false ∧ q = true <;> simp [relayLoop, h, ih]

/-- Claim C9: the relay loop stops immediately after yielding a done line —
anything still queued behind the done line, or enqueued later, is never
delivered — and a delivered done line is always the last delivered line. -/
theorem C9_stop_after_done :
    (∀ ys : List Poll, relayLoop (Poll.item Event.done :: ys) = ([Event.done], true)) ∧
    (∀ ps : List Poll, Event.done ∈ (relayLoop ps).1 →
      ∃ es, (relayLoop ps).1 = es ++ [Event.done] ∧ Event.done ∉ es) := by
  constructor
  · intro ys; simp [relayLoop, Event.typeTag]
  · intro ps
    induction ps with
    | nil => intro h; simp [relayLoop] at h
    | cons p ps ih =>
      cases p with
      | item e =>
        by_cases he : e.typeTag = "done"
        · intro _
          have he2 : e = Event.done := (typeTag_eq_done_iff e).mp he
          exact ⟨[], by simp [relayLoop, he, he2, Event.typeTag], by simp⟩
        · intro h
          simp only [relayLoop, he, if_false] at h ⊢
          rcases List.mem_cons.mp h with h1 | h1
          · exact absurd ((typeTag_eq_done_iff e).mpr h1.symm) he
          · obtain ⟨es, h2, h3⟩ := ih h1
            refine ⟨e :: es, by simp [h2], ?_⟩
            intro hm
            rcases List.mem_cons.mp hm with h4 | h4
            · exact he ((typeTag_eq_done_iff e).mpr h4.symm)
            · exact h3 h4
      | timeout c f q =>
        by_cases h : c = false ∧ f = false ∧ q = true
        · intro hm; simp [relayLoop, h] at hm
        · intro hm
          simp only [relayLoop, h, if_false] at hm ⊢
          exact ih hm

theorem C9_stop_after_done_witness :
    relayLoop [Poll.item Event.done, Poll.item (Event.error "late")] = ([Event.done], true) ∧
    ∃ es, (relayLoop [Poll.item Event.done, Poll.item (Event.error "late")]).1 =
      es ++ [Event.done] ∧ Event.done ∉ es :=
  ⟨C9_stop_after_done.1 _, C9_stop_after_done.2 _ (by decide)⟩

/-- Claim C8: in the scenario where the model emits the deltas "Hello" and
" world" and completes, and the TTS session synthesizes the single chunk
of bytes 1, 2 and completes, every schedule of the two producer threads
delivers exactly the two text events in model order, the one audio event
with base64 content "AQI=", and a final done event, with the audio event
interleaved at any position. -/
theorem C8_hello_world_delivery (σ : List Act)
    (hm : Merge (claudeActs ["Hello", " world"]) (fishActs [base64Encode [1, 2]]) σ)
    (hd : doneWaitsForFinish σ = true) :
    deliver (queueOf σ) ∈
      [[Event.text "Hello", Event.text " world", Event.audio "AQI=", Event.done],
       [Event.text "Hello", Event.audio "AQI=", Event.text " world", Event.done],
       [Event.audio "AQI=", Event.text "Hello", Event.text " world", Event.done]] := by
  have key : ∀ τ ∈ merges (claudeActs ["Hello", " world"]) (fishActs [base64Encode [1, 2]]),
      doneWaitsForFinish τ = true →
      deliver (queueOf τ) ∈
        [[Event.text "Hello", Event.text " world", Event.audio "AQI=", Event.done],
         [Event.text "Hello", Event.audio "AQI=", Event.text " world", Event.done],
         [Event.audio "AQI=", Event.text "Hello", Event.text " world", Event.done]] := by
    decide
  exact key σ hm.mem_merges hd

theorem C8_hello_world_delivery_witness :
    deliver (queueOf (claudeActs ["Hello", " world"] ++ fishActs [base64Encode [1, 2]])) ∈
      [[Event.text "Hello", Event.text " world", Event.audio "AQI=", Event.done],
       [Event.text "Hello", Event.audio "AQI=", Event.text " world", Event.done],
       [Event.audio "AQI=", Event.text "Hello", Event.text " world", Event.done]] :=
  C8_hello_world_delivery _ (merge_append _ _) (by decide)

/-- Claim C10: `add` is a no-op on the empty string, so the token buffer
never contains an empty fragment; `stream_claude` still emits a text event
for every delta, so an empty model delta reaches the outbound text stream
but never the speech producer. -/
theorem C10_add_empty_is_noop :
    (∀ b : TextStreamBuffer, b.add "" = b) ∧
    (∀ fs : List String, ((pushList TextStreamBuffer.empty fs).queue.count "") = 0) ∧
    (∀ run : ClaudeStreamRun,
      textContents (stream_claude run).2 = run.chunks ∧
      (stream_claude run).1.queue = run.chunks.filter (· ≠ "")) := by
  refine ⟨fun b => by simp [TextStreamBuffer.add], fun fs => ?_,
    fun run => ⟨textContents_stream_claude run, by rw [stream_claude_buffer]⟩⟩
  rw [pushList_queue]
  simp [TextStreamBuffer.empty, List.count_eq_zero, List.mem_filter]

end VoiceServer
